import Mathlib

/-
Shallow embedding of src/main.rs of hello-heroku-rust-nickel.

The program scans the immediate children of the documentation root
(DOC_ROOT, the fixed relative path "public"), keeps the child directories
whose path matches the regex  .*/(\d+)\.(\d+)  (unanchored search, greedy,
leftmost-first capture semantics of the rust regex crate), parses the two
captured digit groups with str::parse::<u32>() followed by unwrap(), sorts
the resulting (major, minor, label) tuples ascending by (major, minor),
reverses, and projects the labels into a map for the mustache template.

Filesystem interaction is modelled by an explicit RootFs value recording
the outcome of each fs call the code makes: fs::metadata on the root,
fs::read_dir, the per-entry io::Result, fs::metadata on each child, and
Path::to_str (none for non-UTF-8 paths).  A computation outcome is a
RunResult: ok, err (a propagated io::Error, abstracted to its display
string), or panicked (an unwrap() that failed).

The digit class backslash-d of the regex crate is Unicode-aware: it
matches every character of Unicode general category Nd.  It is modelled
by isRegexDigit below, a table of the Nd code-point ranges (UCD 14.0.0).
The crate bundles the UCD current at its release date, so membership may
differ for scripts added to Unicode after that date; every character
mentioned in the claims, counterexamples and witnesses below (the ASCII
digits, the Arabic-Indic digits, dot, slash, plus) has had the same Nd
status in every UCD version.  str::parse::<u32>, by contrast, accepts
only the ASCII digits 0-9 (Char.isDigit), and the asymmetry is
behaviourally relevant: a directory name matched through non-ASCII
digits reaches the parse and panics the unwrap.
-/

namespace HelloHeroku

/-- Filesystem error, abstracted to its display string (what the Rust code
observes of an io::Error via to_string()). -/
structure IoErr where
  msg : List Char
deriving DecidableEq

/-- Result of one io call, mirroring io::Result. -/
inductive IoResult (α : Type) where
  | ok : α → IoResult α
  | err : IoErr → IoResult α
deriving DecidableEq

/-- What metadata.is_dir() observes of a filesystem object. -/
inductive FileType where
  | dir : FileType
  | file : FileType
deriving DecidableEq

/-- Outcome of running a fragment of the program: normal return, a
propagated io::Error (the try! macro), or a panic from a failed unwrap. -/
inductive RunResult (α : Type) where
  | ok : α → RunResult α
  | err : IoErr → RunResult α
  | panicked : RunResult α
deriving DecidableEq

/-- One child entry of the scanned root directory.  pathStr models
entry.path().to_str() — none when the path is not valid UTF-8; meta models
fs::metadata(entry.path()). -/
structure DirEntry where
  pathStr : Option (List Char)
  meta : IoResult FileType
deriving DecidableEq

/-- The filesystem as observed by list_version_dirs: the outcome of
fs::metadata on the root and of fs::read_dir, the latter yielding a list
of per-entry io::Results. -/
structure RootFs where
  rootMeta : IoResult FileType
  readDir : IoResult (List (IoResult DirEntry))
deriving DecidableEq

/-- The newline character, which the regex dot does not match. -/
def nlChar : Char := Char.ofNat 10

/-- The apostrophe character (used in the fallback body literal). -/
def quoteChar : Char := Char.ofNat 39

/-- The code-point ranges of the Unicode general category Nd (decimal
digit), Unicode character database version 14.0.0. -/
def ndRanges : List (Nat × Nat) := [
  (48, 57), (1632, 1641), (1776, 1785), (1984, 1993), (2406, 2415), (2534, 2543),
  (2662, 2671), (2790, 2799), (2918, 2927), (3046, 3055), (3174, 3183), (3302, 3311),
  (3430, 3439), (3558, 3567), (3664, 3673), (3792, 3801), (3872, 3881), (4160, 4169),
  (4240, 4249), (6112, 6121), (6160, 6169), (6470, 6479), (6608, 6617), (6784, 6793),
  (6800, 6809), (6992, 7001), (7088, 7097), (7232, 7241), (7248, 7257), (42528, 42537),
  (43216, 43225), (43264, 43273), (43472, 43481), (43504, 43513), (43600, 43609), (44016, 44025),
  (65296, 65305), (66720, 66729), (68912, 68921), (69734, 69743), (69872, 69881), (69942, 69951),
  (70096, 70105), (70384, 70393), (70736, 70745), (70864, 70873), (71248, 71257), (71360, 71369),
  (71472, 71481), (71904, 71913), (72016, 72025), (72784, 72793), (73040, 73049), (73120, 73129),
  (92768, 92777), (92864, 92873), (93008, 93017), (120782, 120831), (123200, 123209), (123632, 123641),
  (125264, 125273), (130032, 130041)]

/-- The digit class backslash-d of the regex crate: any character of the
Unicode general category Nd.  The ASCII-only digit test of the integer
parser is Char.isDigit; the two classes differ exactly on the non-ASCII
decimal digits. -/
def isRegexDigit (c : Char) : Bool :=
  ndRanges.any (fun r => decide (r.1 ≤ c.toNat ∧ c.toNat ≤ r.2))

/-- Matching of the regex tail  (\d+)\.(\d+)  anchored at the position just
after a slash: a maximal nonempty run of digits, a literal dot, then a
maximal nonempty run of digits (greedy; nothing is required after the
second group because the pattern has no end anchor).  Returns the two
captured groups. -/
def matchAfterSlash (s : List Char) : Option (List Char × List Char) :=
  let d1 := s.takeWhile isRegexDigit
  if d1.isEmpty then none
  else
    match s.dropWhile isRegexDigit with
    | c :: r2 =>
      if c = '.' then
        let d2 := r2.takeWhile isRegexDigit
        if d2.isEmpty then none else some (d1, d2)
      else none
    | [] => none

/-- Matching of  .*/(\d+)\.(\d+)  anchored at the start of s: the greedy
dot-star consumes as many non-newline characters as possible and backtracks,
so the latest viable slash within the newline-free prefix wins. -/
def tryStar : List Char → Option (List Char × List Char)
  | [] => none
  | c :: rest =>
    match (if c = nlChar then none else tryStar rest) with
    | some r => some r
    | none => if c = '/' then matchAfterSlash rest else none

/-- Unanchored search of the regex  .*/(\d+)\.(\d+)  over the whole string
(Regex::captures): match start positions are tried left to right, and at
each start the greedy semantics of tryStar apply. -/
def reSemVerCaptures : List Char → Option (List Char × List Char)
  | [] => none
  | c :: rest =>
    match tryStar (c :: rest) with
    | some r => some r
    | none => reSemVerCaptures rest

/-- Numeric value of an ASCII decimal digit. -/
def digitVal (c : Char) : Nat := c.toNat - 48

/-- Value of a big-endian ASCII decimal digit string. -/
def digitsToNat (s : List Char) : Nat := s.foldl (fun n c => 10 * n + digitVal c) 0

/-- Model of str::parse::<u32>(): an optional leading plus sign, then a
nonempty all-digit string whose value fits in 32 bits; anything else
(empty input, a non-digit, or overflow past u32::MAX) is an error. -/
def u32_parse (s : List Char) : Option Nat :=
  let t := match s with
    | c :: rest => if c = '+' then rest else s
    | [] => s
  if t.isEmpty then none
  else if t.all Char.isDigit then
    if digitsToNat t < 4294967296 then some (digitsToNat t) else none
  else none

/-- A (major, minor, label) tuple as built by list_version_dirs. -/
abbrev VersionTuple := Nat × Nat × List Char

/-- Body of the inner if-let chain of list_version_dirs for one UTF-8 child
path: apply the regex; on a match, parse both captured groups with
parse::<u32>().unwrap() — a failed parse is a panic — and build the tuple
(v1.parse, v2.parse, format ( v1 . v2 )); on no match, contribute
nothing. -/
def processPath (path : List Char) : RunResult (List VersionTuple) :=
  match reSemVerCaptures path with
  | none => .ok []
  | some (v1, v2) =>
    match u32_parse v1, u32_parse v2 with
    | some a, some b => .ok [(a, b, v1 ++ '.' :: v2)]
    | _, _ => .panicked

/-- The for-loop of list_version_dirs over the entries of read_dir: each
entry is itself an io::Result (try!), then its metadata is read (try!);
child directories with a UTF-8 path go through processPath; non-directories
and non-UTF-8 paths contribute nothing.  Errors and panics abort the scan
at the entry that raised them. -/
def collectEntries : List (IoResult DirEntry) → RunResult (List VersionTuple)
  | [] => .ok []
  | .err e :: _ => .err e
  | .ok ent :: rest =>
    match ent.meta with
    | .err e => .err e
    | .ok ft =>
      match (if ft = FileType.dir then
               match ent.pathStr with
               | some p => processPath p
               | none => .ok []
             else .ok []) with
      | .err e => .err e
      | .panicked => .panicked
      | .ok h =>
        match collectEntries rest with
        | .ok t => .ok (h ++ t)
        | .err e => .err e
        | .panicked => .panicked

/-- list_version_dirs: propagate a root fs::metadata error; when the root
is a directory, read its entries (propagating a read_dir error) and fold
them with collectEntries; when the root exists but is not a directory, the
if-block is skipped and the empty vector is returned. -/
def list_version_dirs (fs : RootFs) : RunResult (List VersionTuple) :=
  match fs.rootMeta with
  | .err e => .err e
  | .ok ft =>
    if ft = FileType.dir then
      match fs.readDir with
      | .err e => .err e
      | .ok entries => collectEntries entries
    else .ok []

/-- The comparator of sort_versions: compare majors, break ties on
minors. -/
def version_cmp (a b : VersionTuple) : Ordering :=
  match compare a.1 b.1 with
  | Ordering.eq => compare a.2.1 b.2.1
  | o => o

/-- The not-greater relation induced by version_cmp; Rust slice::sort_by is
a stable sort with respect to this relation.  A stable sort for a total
preorder has a uniquely determined output, so any stable sorting algorithm
is a faithful model of it. -/
def versionLe (a b : VersionTuple) : Bool := version_cmp a b != Ordering.gt

/-- versionLe as a decidable relation, for the sorting function. -/
def versionLeR (a b : VersionTuple) : Prop := versionLe a b = true

instance : DecidableRel versionLeR :=
  fun a b => inferInstanceAs (Decidable (versionLe a b = true))

/-- sort_versions: stable sort by (major, minor) ascending (insertion sort
is stable, hence output-equal to the stable sort_by of the source). -/
def sort_versions (vs : List VersionTuple) : List VersionTuple :=
  List.insertionSort versionLeR vs

/-- get_versions: scan, sort ascending, reverse, keep the labels. -/
def get_versions (fs : RootFs) : RunResult (List (List Char)) :=
  match list_version_dirs fs with
  | .ok vs => .ok (((sort_versions vs).reverse).map (fun t => t.2.2))
  | .err e => .err e
  | .panicked => .panicked

/-- The singleton map a version label is wrapped in: key "version" bound to
the label, nothing else bound.  HashMaps are modelled extensionally as
functions from keys to optional values; the code only ever inserts into
empty maps, so insertion order and hashing are irrelevant. -/
def singleVersionMap (ver : List Char) : String → Option (List Char) :=
  fun k => if k = "version" then some ver else none

/-- make_menu_data: a map with the single key "versions" bound to the list
of wrapped labels, in input order. -/
def make_menu_data (vers : List (List Char)) :
    String → Option (List (String → Option (List Char))) :=
  fun k => if k = "versions" then some (vers.map singleVersionMap) else none

/-- The fixed documentation root path. -/
def DOC_ROOT : List Char := "public".data

/-- The fixed home template path. -/
def HOME_TEMPLATE : List Char := "assets/home.mustache".data

/-- The diagnostic printed by main when get_versions fails: the format
string of the println, with the error display string and DOC_ROOT
substituted (the backslash line continuation in the source collapses the
literal to a single line). -/
def diagMessage (e : IoErr) : List Char :=
  "An error occured while scanning the doc root directory. Exiting. Error: ".data
    ++ e.msg ++ ", Dir: ".data ++ DOC_ROOT

/-- Observable outcome of main up to the point of listening: either it
printed a diagnostic and returned before creating the server, or it
panicked during the scan, or it reached server.listen with the menu data
computed at startup. -/
inductive MainOutcome where
  | exited : List Char → MainOutcome
  | panicked : MainOutcome
  | serving : (String → Option (List (String → Option (List Char)))) → MainOutcome

/-- The startup phase of main: run get_versions on DOC_ROOT; on Err print
the diagnostic and return (never listening); otherwise build the menu data
once and serve it for the lifetime of the process. -/
def mainModel (fs : RootFs) : MainOutcome :=
  match get_versions fs with
  | .err e => .exited (diagMessage e)
  | .panicked => .panicked
  | .ok vers => .serving (make_menu_data vers)

/-- A response produced by the three-handler chain. -/
inductive Response where
  | rendered : List Char → (String → Option (List (String → Option (List Char)))) → Response
  | staticFile : List Char → Response
  | text : List Char → Response

/-- Body of the fallback middleware: the literal text
No static file with path (apostrophe) path (apostrophe) (bang). -/
def fallback_body (path : List Char) : List Char :=
  "No static file with path ".data ++ quoteChar :: path ++ quoteChar :: "!".data

/-- The router for GET requests: the home handler matches exactly the root
path and renders the template with the menu data; otherwise the static
files handler serves a matching file if one exists; otherwise the fallback
middleware answers with fallback_body.  hasStaticFile abstracts the
static-file collaborator. -/
def route (hasStaticFile : List Char → Bool)
    (menu : String → Option (List (String → Option (List Char))))
    (path : List Char) : Response :=
  if path = "/".data then Response.rendered HOME_TEMPLATE menu
  else if hasStaticFile path then Response.staticFile path
  else Response.text (fallback_body path)

/-- Convenience constructor for a well-behaved child directory entry. -/
def dirEntry (path : String) : IoResult DirEntry :=
  .ok { pathStr := some path.data, meta := .ok FileType.dir }

/-- Root containing the three version directories of the example in the
spec. -/
def fsThree : RootFs :=
  { rootMeta := .ok FileType.dir
  , readDir := .ok [dirEntry "public/1.10", dirEntry "public/1.6", dirEntry "public/1.9"] }

/-- Root containing a single three-part version directory. -/
def fsThreePart : RootFs :=
  { rootMeta := .ok FileType.dir
  , readDir := .ok [dirEntry "public/1.10.0"] }

/-- Root containing a single directory with a leading zero in the major
digit group. -/
def fsLeadingZero : RootFs :=
  { rootMeta := .ok FileType.dir
  , readDir := .ok [dirEntry "public/01.2"] }

/-- Root containing a single directory whose major digit group overflows
u32. -/
def fsOverflow : RootFs :=
  { rootMeta := .ok FileType.dir
  , readDir := .ok [dirEntry "public/4294967296.0"] }

/-- The child name written with the Arabic-Indic digits three and four:
digit three, a dot, digit four (code points 1635 and 1636).  Both digits
belong to Unicode category Nd, so the regex matches them, but they are
not ASCII digits, so parse::<u32> rejects them. -/
def arabicName : List Char := [Char.ofNat 1635, '.', Char.ofNat 1636]

/-- Root containing a single directory named with Arabic-Indic digits. -/
def fsArabicDigits : RootFs :=
  { rootMeta := .ok FileType.dir
  , readDir := .ok [.ok { pathStr := some ("public/".data ++ arabicName)
                        , meta := .ok FileType.dir }] }

/-- A root path that exists but is a plain file, not a directory. -/
def fsFileRoot : RootFs :=
  { rootMeta := .ok FileType.file, readDir := .ok [] }

/-- An existing, accessible, empty root directory. -/
def fsEmptyRoot : RootFs :=
  { rootMeta := .ok FileType.dir, readDir := .ok [] }

/-- A root whose metadata cannot be read. -/
def fsMissingRoot : RootFs :=
  { rootMeta := .err { msg := "No such file or directory (os error 2)".data }
  , readDir := .err { msg := "No such file or directory (os error 2)".data } }

/-- A root whose second child entry vanishes between read_dir and the
metadata call. -/
def fsVanishingChild : RootFs :=
  { rootMeta := .ok FileType.dir
  , readDir := .ok [dirEntry "public/1.6",
      .ok { pathStr := some "public/1.9".data
          , meta := .err { msg := "No such file or directory (os error 2)".data } }] }

/-- Strict descending order on version tuples: the later tuple is strictly
below the earlier one by major, ties broken by minor. -/
def versionDesc (a b : VersionTuple) : Prop :=
  b.1 < a.1 ∨ (b.1 = a.1 ∧ b.2.1 < a.2.1)

/-- The canonical display label described by the spec: the decimal
representation of major, a dot, the decimal representation of minor. -/
def specCanonicalLabel (major minor : Nat) : List Char :=
  Nat.toDigits 10 major ++ '.' :: Nat.toDigits 10 minor

/-- Taking while p from a list that is an all-p block followed by a
non-p element keeps exactly the block. -/
theorem takeWhile_append_all {p : Char → Bool} {l : List Char} (c : Char) (t : List Char)
    (hl : l.all p = true) (hc : p c = false) :
    (l ++ c :: t).takeWhile p = l := by
  induction l with
  | nil => simp [List.takeWhile_cons, hc]
  | cons x xs ih =>
    simp only [List.all_cons, Bool.and_eq_true] at hl
    simp [List.takeWhile_cons, hl.1, ih hl.2]

/-- Dropping while p from a list that is an all-p block followed by a
non-p element drops exactly the block. -/
theorem dropWhile_append_all {p : Char → Bool} {l : List Char} (c : Char) (t : List Char)
    (hl : l.all p = true) (hc : p c = false) :
    (l ++ c :: t).dropWhile p = c :: t := by
  induction l with
  | nil => simp [List.dropWhile_cons, hc]
  | cons x xs ih =>
    simp only [List.all_cons, Bool.and_eq_true] at hl
    simp [List.dropWhile_cons, hl.1, ih hl.2]

/-- A successful matchAfterSlash yields the maximal leading digit run as
major, a nonempty digit run as minor, and decomposes its input. -/
theorem matchAfterSlash_shape {s d1 d2 : List Char}
    (h : matchAfterSlash s = some (d1, d2)) :
    d1 ≠ [] ∧ d1.all isRegexDigit = true ∧ d2 ≠ [] ∧ d2.all isRegexDigit = true ∧
      ∃ rest, s = d1 ++ '.' :: (d2 ++ rest) := by
  simp only [matchAfterSlash] at h
  split at h
  · exact absurd h (by simp)
  next h1 =>
    split at h
    next c r2 hdrop =>
      split at h
      next hc =>
        split at h
        · exact absurd h (by simp)
        next h2 =>
          simp only [Option.some.injEq, Prod.mk.injEq] at h
          obtain ⟨hd1, hd2⟩ := h
          subst hd1; subst hd2; subst hc
          refine ⟨by simpa [List.isEmpty_iff] using h1, List.all_takeWhile,
            by simpa [List.isEmpty_iff] using h2, List.all_takeWhile,
            r2.dropWhile isRegexDigit, ?_⟩
          conv_lhs => rw [← List.takeWhile_append_dropWhile (p := isRegexDigit) (l := s)]
          rw [hdrop, List.takeWhile_append_dropWhile]
      next hc => exact absurd h (by simp)
    next hdrop => exact absurd h (by simp)

/-- Any input of the shape digits, dot, digits, remainder is accepted by
matchAfterSlash. -/
theorem matchAfterSlash_of_decomp {d1 d2 rest : List Char}
    (h1 : d1 ≠ []) (h1d : d1.all isRegexDigit = true)
    (h2 : d2 ≠ []) (h2d : d2.all isRegexDigit = true) :
    (matchAfterSlash (d1 ++ '.' :: (d2 ++ rest))).isSome = true := by
  have hdot : isRegexDigit '.' = false := by decide
  have ht := takeWhile_append_all (p := isRegexDigit) '.' (d2 ++ rest) h1d hdot
  have hd := dropWhile_append_all (p := isRegexDigit) '.' (d2 ++ rest) h1d hdot
  obtain ⟨x, d2t, rfl⟩ := List.exists_cons_of_ne_nil h2
  simp only [List.all_cons, Bool.and_eq_true] at h2d
  unfold matchAfterSlash
  rw [ht, hd]
  simp [List.isEmpty_iff, h1, List.takeWhile_cons, h2d.1]

/-- A string without a slash cannot match the dot-star slash pattern from
a fixed start position. -/
theorem tryStar_no_slash {s : List Char} (h : '/' ∉ s) : tryStar s = none := by
  induction s with
  | nil => rfl
  | cons c rest ih =>
    have hc : c ≠ '/' := fun he => h (he ▸ List.mem_cons_self c rest)
    have hr : '/' ∉ rest := fun hm => h (List.mem_cons_of_mem c hm)
    unfold tryStar
    by_cases hnl : c = nlChar
    · rw [if_pos hnl]
      simp [hc]
    · rw [if_neg hnl, ih hr]
      simp [hc]

/-- A string without a slash cannot match the regex anywhere. -/
theorem reSemVer_no_slash {s : List Char} (h : '/' ∉ s) : reSemVerCaptures s = none := by
  induction s with
  | nil => rfl
  | cons c rest ih =>
    have hr : '/' ∉ rest := fun hm => h (List.mem_cons_of_mem c hm)
    unfold reSemVerCaptures
    rw [tryStar_no_slash h]
    exact ih hr

/-- With a slash-free, newline-free prefix before the unique slash, the
anchored greedy match reduces to matching just after that slash. -/
theorem tryStar_prefix (pre : List Char) {name : List Char} (hp : '/' ∉ pre)
    (hn : nlChar ∉ pre) (hname : '/' ∉ name) :
    tryStar (pre ++ '/' :: name) = matchAfterSlash name := by
  induction pre with
  | nil =>
    show tryStar ('/' :: name) = _
    unfold tryStar
    have h1 : ('/' : Char) ≠ nlChar := by decide
    rw [if_neg h1, tryStar_no_slash hname]
    simp
  | cons c pre' ih =>
    have hc : c ≠ '/' := fun he => hp (he ▸ List.mem_cons_self c pre')
    have hcn : c ≠ nlChar := fun he => hn (he ▸ List.mem_cons_self c pre')
    have ih' := ih (fun hm => hp (List.mem_cons_of_mem c hm))
      (fun hm => hn (List.mem_cons_of_mem c hm))
    show tryStar (c :: (pre' ++ '/' :: name)) = _
    unfold tryStar
    rw [if_neg hcn, ih']
    cases hm : matchAfterSlash name with
    | some r => rfl
    | none => simp [hc]

/-- With a slash-free, newline-free prefix before the unique slash, the
unanchored search reduces to matching just after that slash. -/
theorem reSemVer_prefix {pre name : List Char} (hp : '/' ∉ pre) (hn : nlChar ∉ pre)
    (hname : '/' ∉ name) :
    reSemVerCaptures (pre ++ '/' :: name) = matchAfterSlash name := by
  induction pre with
  | nil =>
    have ht : tryStar ('/' :: name) = matchAfterSlash name := by
      simpa using tryStar_prefix [] (by simp) (by simp) hname
    show reSemVerCaptures ('/' :: name) = _
    unfold reSemVerCaptures
    rw [ht]
    cases hm : matchAfterSlash name with
    | some r => rfl
    | none => simpa using reSemVer_no_slash hname
  | cons c pre' ih =>
    have hp' : '/' ∉ pre' := fun hm => hp (List.mem_cons_of_mem c hm)
    have hn' : nlChar ∉ pre' := fun hm => hn (List.mem_cons_of_mem c hm)
    have ht := tryStar_prefix (c :: pre') hp hn hname
    rw [List.cons_append] at ht
    show reSemVerCaptures (c :: (pre' ++ '/' :: name)) = _
    unfold reSemVerCaptures
    rw [ht, ih hp' hn']
    cases hm : matchAfterSlash name with
    | some r => rfl
    | none => rfl

/-- For the paths the program builds, matching is matching of the child
name just after the root prefix. -/
theorem reSemVer_public {name : List Char} (h : '/' ∉ name) :
    reSemVerCaptures ("public/".data ++ name) = matchAfterSlash name := by
  have h1 : ("public/".data : List Char) = "public".data ++ ['/'] := by decide
  have h2 : "public".data ++ ['/'] ++ name = "public".data ++ '/' :: name := by
    simp
  rw [h1, h2]
  exact reSemVer_prefix (by decide) (by decide) h

/-- Both groups captured by the anchored greedy match are nonempty digit
strings. -/
theorem tryStar_digits {s d1 d2 : List Char} (h : tryStar s = some (d1, d2)) :
    d1 ≠ [] ∧ d1.all isRegexDigit = true ∧ d2 ≠ [] ∧ d2.all isRegexDigit = true := by
  induction s with
  | nil => exact absurd h (by simp [tryStar])
  | cons c rest ih =>
    unfold tryStar at h
    cases hx : (if c = nlChar then none else tryStar rest) with
    | some r =>
      rw [hx] at h
      simp only [Option.some.injEq] at h
      by_cases hnl : c = nlChar
      · rw [if_pos hnl] at hx; exact absurd hx (by simp)
      · rw [if_neg hnl] at hx
        exact ih (h ▸ hx)
    | none =>
      rw [hx] at h
      by_cases hsl : c = '/'
      · rw [if_pos hsl] at h
        obtain ⟨hn1, ha1, hn2, ha2, _⟩ := matchAfterSlash_shape h
        exact ⟨hn1, ha1, hn2, ha2⟩
      · rw [if_neg hsl] at h; exact absurd h (by simp)

/-- Both groups captured by the unanchored regex search are nonempty digit
strings. -/
theorem reSemVer_digits {s d1 d2 : List Char} (h : reSemVerCaptures s = some (d1, d2)) :
    d1 ≠ [] ∧ d1.all isRegexDigit = true ∧ d2 ≠ [] ∧ d2.all isRegexDigit = true := by
  induction s with
  | nil => exact absurd h (by simp [reSemVerCaptures])
  | cons c rest ih =>
    unfold reSemVerCaptures at h
    cases hx : tryStar (c :: rest) with
    | some r =>
      rw [hx] at h
      simp only [Option.some.injEq] at h
      exact tryStar_digits (h ▸ hx)
    | none =>
      rw [hx] at h
      exact ih h

/-- Parsing a nonempty all-digit string with the u32 parser: it succeeds
with the numeric value exactly when the value fits in 32 bits. -/
theorem u32_parse_digits {s : List Char} (hne : s ≠ []) (hd : s.all Char.isDigit = true) :
    u32_parse s =
      if digitsToNat s < 4294967296 then some (digitsToNat s) else none := by
  obtain ⟨c, rest, rfl⟩ := List.exists_cons_of_ne_nil hne
  simp only [List.all_cons, Bool.and_eq_true] at hd
  have hplus : c ≠ '+' := by
    intro he
    rw [he] at hd
    exact absurd hd.1 (by decide)
  simp [u32_parse, hplus, hd.1, hd.2]

/-- What a successful u32 parse of a plus-free string shows: the string is
a nonempty ASCII digit string, its value fits in 32 bits, and the result
is that value.  (Entries can therefore only be built from ASCII-digit
captures, although the regex grammar admits any Unicode digits.) -/
theorem u32_parse_some {c : Char} {rest : List Char} {a : Nat}
    (hplus : c ≠ '+') (h : u32_parse (c :: rest) = some a) :
    (c :: rest).all Char.isDigit = true ∧ digitsToNat (c :: rest) < 4294967296 ∧
      a = digitsToNat (c :: rest) := by
  simp only [u32_parse] at h
  rw [if_neg hplus] at h
  split at h
  · exact absurd h (by simp)
  · split at h
    next hall =>
      split at h
      next hlt =>
        simp only [Option.some.injEq] at h
        exact ⟨hall, hlt, h.symm⟩
      · exact absurd h (by simp)
    · exact absurd h (by simp)

/-- The for-loop processed over a concatenation: if the first block
succeeds, its tuples are prepended to the outcome of the second block. -/
theorem collectEntries_append {pre : List (IoResult DirEntry)} {vs : List VersionTuple}
    (rest : List (IoResult DirEntry)) (h : collectEntries pre = .ok vs) :
    collectEntries (pre ++ rest) =
      match collectEntries rest with
      | .ok t => .ok (vs ++ t)
      | .err e => .err e
      | .panicked => .panicked := by
  induction pre generalizing vs with
  | nil =>
    simp only [collectEntries] at h
    cases h
    simp only [List.nil_append]
    cases collectEntries rest <;> simp
  | cons er pre' ih =>
    cases er with
    | err e => exact absurd h (by simp [collectEntries])
    | ok ent =>
      rw [List.cons_append]
      simp only [collectEntries] at h ⊢
      cases hme : ent.meta with
      | err e => simp only [hme] at h; exact absurd h (by simp)
      | ok ft =>
        simp only [hme] at h ⊢
        cases hpp : (if ft = FileType.dir then
            match ent.pathStr with
            | some p => processPath p
            | none => .ok []
          else .ok []) with
        | err e => simp only [hpp] at h; exact absurd h (by simp)
        | panicked => simp only [hpp] at h; exact absurd h (by simp)
        | ok hl =>
          simp only [hpp] at h ⊢
          cases hc : collectEntries pre' with
          | err e => simp only [hc] at h; exact absurd h (by simp)
          | panicked => simp only [hc] at h; exact absurd h (by simp)
          | ok t =>
            simp only [hc, RunResult.ok.injEq] at h
            rw [ih hc]
            cases collectEntries rest <;> simp [← h, List.append_assoc]

/-- Every tuple contributed by one matching path records the numeric
values of the captured groups and the label built from those same
groups. -/
theorem processPath_mem {p : List Char} {l : List VersionTuple} {t : VersionTuple}
    (h : processPath p = .ok l) (ht : t ∈ l) :
    ∃ d1 d2 : List Char, d1 ≠ [] ∧ d1.all Char.isDigit = true ∧ d2 ≠ [] ∧
      d2.all Char.isDigit = true ∧
      t = (digitsToNat d1, digitsToNat d2, d1 ++ '.' :: d2) := by
  cases hre : reSemVerCaptures p with
  | none =>
    simp only [processPath, hre, RunResult.ok.injEq] at h
    rw [← h] at ht
    exact absurd ht (by simp)
  | some pr =>
    obtain ⟨d1, d2⟩ := pr
    simp only [processPath, hre] at h
    obtain ⟨hn1, ha1, hn2, ha2⟩ := reSemVer_digits hre
    cases hu1 : u32_parse d1 with
    | none =>
      simp only [hu1] at h
      exact absurd h (by simp)
    | some a =>
      cases hu2 : u32_parse d2 with
      | none =>
        simp only [hu1, hu2] at h
        exact absurd h (by simp)
      | some b =>
        simp only [hu1, hu2, RunResult.ok.injEq] at h
        rw [← h] at ht
        simp only [List.mem_singleton] at ht
        obtain ⟨c1, r1, rfl⟩ := List.exists_cons_of_ne_nil hn1
        obtain ⟨c2, r2, rfl⟩ := List.exists_cons_of_ne_nil hn2
        have hp1 : c1 ≠ '+' := by
          intro he
          rw [he] at ha1
          simp only [List.all_cons, Bool.and_eq_true] at ha1
          exact absurd ha1.1 (by decide)
        have hp2 : c2 ≠ '+' := by
          intro he
          rw [he] at ha2
          simp only [List.all_cons, Bool.and_eq_true] at ha2
          exact absurd ha2.1 (by decide)
        obtain ⟨hall1, _, hav⟩ := u32_parse_some hp1 hu1
        obtain ⟨hall2, _, hbv⟩ := u32_parse_some hp2 hu2
        refine ⟨c1 :: r1, c2 :: r2, hn1, hall1, hn2, hall2, ?_⟩
        rw [ht, hav, hbv]

/-- Every tuple produced by the loop comes from some matching path via
processPath. -/
theorem collectEntries_mem {entries : List (IoResult DirEntry)} {vs : List VersionTuple}
    {t : VersionTuple} (h : collectEntries entries = .ok vs) (ht : t ∈ vs) :
    ∃ d1 d2 : List Char, d1 ≠ [] ∧ d1.all Char.isDigit = true ∧ d2 ≠ [] ∧
      d2.all Char.isDigit = true ∧
      t = (digitsToNat d1, digitsToNat d2, d1 ++ '.' :: d2) := by
  induction entries generalizing vs with
  | nil =>
    simp only [collectEntries] at h
    cases h
    exact absurd ht (by simp)
  | cons er rest ih =>
    cases er with
    | err e => exact absurd h (by simp [collectEntries])
    | ok ent =>
      simp only [collectEntries] at h
      cases hme : ent.meta with
      | err e => simp only [hme] at h; exact absurd h (by simp)
      | ok ft =>
        simp only [hme] at h
        cases hpp : (if ft = FileType.dir then
            match ent.pathStr with
            | some p => processPath p
            | none => .ok []
          else .ok []) with
        | err e => simp only [hpp] at h; exact absurd h (by simp)
        | panicked => simp only [hpp] at h; exact absurd h (by simp)
        | ok hl =>
          simp only [hpp] at h
          cases hc : collectEntries rest with
          | err e => simp only [hc] at h; exact absurd h (by simp)
          | panicked => simp only [hc] at h; exact absurd h (by simp)
          | ok tl =>
            simp only [hc, RunResult.ok.injEq] at h
            rw [← h] at ht
            rcases List.mem_append.mp ht with hh | hh
            · by_cases hft : ft = FileType.dir
              · rw [if_pos hft] at hpp
                cases hps : ent.pathStr with
                | none =>
                  simp only [hps, RunResult.ok.injEq] at hpp
                  rw [← hpp] at hh
                  exact absurd hh (by simp)
                | some p =>
                  simp only [hps] at hpp
                  exact processPath_mem hpp hh
              · rw [if_neg hft] at hpp
                simp only [RunResult.ok.injEq] at hpp
                rw [← hpp] at hh
                exact absurd hh (by simp)
            · exact ih hc hh

/-- A successful scan either found the root not to be a directory (empty
result) or folded the entries of read_dir. -/
theorem list_version_dirs_ok {fs : RootFs} {ts : List VersionTuple}
    (h : list_version_dirs fs = .ok ts) :
    ts = [] ∨ ∃ entries, fs.readDir = .ok entries ∧ collectEntries entries = .ok ts := by
  unfold list_version_dirs at h
  cases hm : fs.rootMeta with
  | err e => simp only [hm] at h; exact absurd h (by simp)
  | ok ft =>
    simp only [hm] at h
    by_cases hft : ft = FileType.dir
    · subst hft
      rw [if_pos rfl] at h
      cases hr : fs.readDir with
      | err e => simp only [hr] at h; exact absurd h (by simp)
      | ok entries =>
        simp only [hr] at h
        exact Or.inr ⟨entries, rfl, h⟩
    · rw [if_neg hft] at h
      simp only [RunResult.ok.injEq] at h
      exact Or.inl h.symm

/-- The comparator relation unfolded: not-greater means smaller major, or
equal major and not-greater minor. -/
theorem versionLeR_iff {a b : VersionTuple} :
    versionLeR a b ↔ (a.1 < b.1 ∨ (a.1 = b.1 ∧ a.2.1 ≤ b.2.1)) := by
  unfold versionLeR versionLe version_cmp
  rcases Nat.lt_trichotomy a.1 b.1 with h | h | h
  · rw [Nat.compare_eq_lt.mpr h]
    constructor
    · intro _
      exact Or.inl h
    · intro _
      show (Ordering.lt != Ordering.gt) = true
      decide
  · rw [Nat.compare_eq_eq.mpr h]
    show (compare a.2.1 b.2.1 != Ordering.gt) = true ↔ _
    cases h2 : compare a.2.1 b.2.1 with
    | lt =>
      have hl := Nat.compare_eq_lt.mp h2
      constructor
      · intro _
        exact Or.inr ⟨h, Nat.le_of_lt hl⟩
      · intro _
        decide
    | eq =>
      have hl := Nat.compare_eq_eq.mp h2
      constructor
      · intro _
        exact Or.inr ⟨h, Nat.le_of_eq hl⟩
      · intro _
        decide
    | gt =>
      have hl := Nat.compare_eq_gt.mp h2
      constructor
      · intro hh
        exact absurd hh (by decide)
      · intro hh
        exfalso
        rcases hh with hh | ⟨hh1, hh2⟩ <;> omega
  · rw [Nat.compare_eq_gt.mpr h]
    constructor
    · intro hh
      have hh2 : (Ordering.gt != Ordering.gt) = true := hh
      exact absurd hh2 (by decide)
    · intro hh
      exfalso
      rcases hh with hh | ⟨hh1, hh2⟩ <;> omega

/-- Sorting tuples with pairwise distinct (major, minor) keys ascending and
reversing yields a strictly descending list. -/
theorem sort_versions_strict {ts : List VersionTuple}
    (hdist : ts.Pairwise (fun a b => (a.1, a.2.1) ≠ (b.1, b.2.1))) :
    ((sort_versions ts).reverse).Pairwise versionDesc := by
  have htot : ∀ a b : VersionTuple, versionLeR a b ∨ versionLeR b a := by
    intro a b
    rw [versionLeR_iff, versionLeR_iff]
    omega
  have htrans : ∀ a b c : VersionTuple, versionLeR a b → versionLeR b c → versionLeR a c := by
    intro a b c hab hbc
    rw [versionLeR_iff] at hab hbc ⊢
    omega
  have hsort : (sort_versions ts).Pairwise versionLeR :=
    @List.sorted_insertionSort VersionTuple versionLeR _ ⟨htot⟩ ⟨htrans⟩ ts
  have hperm : (sort_versions ts).Perm ts := List.perm_insertionSort versionLeR ts
  have hne : (sort_versions ts).Pairwise (fun a b => (a.1, a.2.1) ≠ (b.1, b.2.1)) :=
    (hperm.pairwise_iff (fun hxy => Ne.symm hxy)).mpr hdist
  rw [List.pairwise_reverse]
  refine (hsort.and hne).imp ?_
  intro a b hab
  obtain ⟨hle, hne2⟩ := hab
  rw [versionLeR_iff] at hle
  have hne3 : ¬(a.1 = b.1 ∧ a.2.1 = b.2.1) := by
    rintro ⟨h1, h2⟩
    exact hne2 (by rw [h1, h2])
  unfold versionDesc
  rcases hle with h | ⟨h1, h2⟩
  · exact Or.inl h
  · exact Or.inr ⟨h1, Nat.lt_of_le_of_ne h2 (fun he => hne3 ⟨h1, he⟩)⟩

/-- C1: for every successful scan whose (major, minor) pairs are pairwise
distinct, the catalog order of get_versions is strictly descending by
(major, minor), and it is exactly the labels of the ascending sort
followed by a reversal; on the example directories 1.10, 1.6, 1.9 the
catalog is 1.10, 1.9, 1.6. -/
theorem claim_C1 (fs : RootFs) (ts : List VersionTuple)
    (hok : list_version_dirs fs = .ok ts)
    (hdist : ts.Pairwise (fun a b => (a.1, a.2.1) ≠ (b.1, b.2.1))) :
    ((sort_versions ts).reverse).Pairwise versionDesc ∧
      get_versions fs = .ok (((sort_versions ts).reverse).map (fun t => t.2.2)) ∧
      get_versions fsThree = .ok ["1.10".data, "1.9".data, "1.6".data] := by
  refine ⟨sort_versions_strict hdist, ?_, by decide⟩
  simp only [get_versions, hok]

/-- Witness for C1 at the example filesystem with directories 1.10, 1.6,
1.9. -/
theorem claim_C1_witness :
    ((sort_versions
        [(1, 10, "1.10".data), (1, 6, "1.6".data), (1, 9, "1.9".data)]).reverse).Pairwise
        versionDesc ∧
      get_versions fsThree =
        .ok (((sort_versions
          [(1, 10, "1.10".data), (1, 6, "1.6".data), (1, 9, "1.9".data)]).reverse).map
            (fun t => t.2.2)) ∧
      get_versions fsThree = .ok ["1.10".data, "1.9".data, "1.6".data] :=
  claim_C1 fsThree [(1, 10, "1.10".data), (1, 6, "1.6".data), (1, 9, "1.9".data)]
    (by decide) (by decide)

/-- C2 counterexample: a root whose only child directory is named 1.10.0
produces a nonempty catalog, the entry (1, 10) labelled 1.10 — the claim
says every name not matching digits dot digits at the end, including
1.10.0, is excluded.  The regex has no end anchor, so 1.10.0 matches. -/
theorem claim_C2_counterexample :
    list_version_dirs fsThreePart = .ok [(1, 10, "1.10".data)] ∧
      get_versions fsThreePart = .ok ["1.10".data] :=
  ⟨by decide, by decide⟩

/-- C2 (amended): the version pattern accepts a child name exactly when the
name BEGINS with one or more Unicode decimal digits, a dot, and one or
more Unicode decimal digits; arbitrary trailing characters (such as the
.0 of 1.10.0) are accepted because the pattern is anchored only after the
slash, not at the end, and the digit class is the Unicode Nd category of
the regex crate, not only ASCII. -/
theorem claim_C2 (name : List Char) (h : '/' ∉ name) :
    (reSemVerCaptures ("public/".data ++ name)).isSome = true ↔
      ∃ d1 d2 rest : List Char, name = d1 ++ '.' :: (d2 ++ rest) ∧
        d1 ≠ [] ∧ d1.all isRegexDigit = true ∧ d2 ≠ [] ∧ d2.all isRegexDigit = true := by
  rw [reSemVer_public h]
  constructor
  · intro hs
    obtain ⟨pr, hpr⟩ := Option.isSome_iff_exists.mp hs
    obtain ⟨d1, d2⟩ := pr
    obtain ⟨hn1, ha1, hn2, ha2, rest, hdec⟩ := matchAfterSlash_shape hpr
    exact ⟨d1, d2, rest, hdec, hn1, ha1, hn2, ha2⟩
  · rintro ⟨d1, d2, rest, hdec, hn1, ha1, hn2, ha2⟩
    rw [hdec]
    exact matchAfterSlash_of_decomp hn1 ha1 hn2 ha2

/-- Witness for C2 at the name 1.10.0. -/
theorem claim_C2_witness :
    ('/' ∉ "1.10.0".data) ∧
      ((reSemVerCaptures ("public/".data ++ "1.10.0".data)).isSome = true ↔
        ∃ d1 d2 rest : List Char, "1.10.0".data = d1 ++ '.' :: (d2 ++ rest) ∧
          d1 ≠ [] ∧ d1.all isRegexDigit = true ∧ d2 ≠ [] ∧ d2.all isRegexDigit = true) :=
  ⟨by decide, claim_C2 "1.10.0".data (by decide)⟩

/-- C3 counterexample: the directory named 01.2 yields the entry
(1, 2, label 01.2) — the label keeps the captured leading zero, so it is
not the string obtained by formatting the parsed integers, which is
1.2. -/
theorem claim_C3_counterexample :
    list_version_dirs fsLeadingZero = .ok [(1, 2, "01.2".data)] ∧
      "01.2".data ≠ specCanonicalLabel 1 2 :=
  ⟨by decide, by decide⟩

/-- C3 (amended): every catalog entry carries the numeric values of the two
captured digit groups and a label equal to the captured groups joined by a
dot; the label coincides with the canonical format of the parsed integers
exactly when the captured groups are the canonical decimal
representations, i.e. have no leading zeros. -/
theorem claim_C3 (fs : RootFs) (ts : List VersionTuple)
    (hok : list_version_dirs fs = .ok ts) (t : VersionTuple) (ht : t ∈ ts) :
    ∃ d1 d2 : List Char, d1 ≠ [] ∧ d1.all Char.isDigit = true ∧ d2 ≠ [] ∧
      d2.all Char.isDigit = true ∧
      t = (digitsToNat d1, digitsToNat d2, d1 ++ '.' :: d2) ∧
      ((d1 = Nat.toDigits 10 t.1 ∧ d2 = Nat.toDigits 10 t.2.1) →
        t.2.2 = specCanonicalLabel t.1 t.2.1) := by
  rcases list_version_dirs_ok hok with rfl | ⟨entries, _, hc⟩
  · exact absurd ht (by simp)
  · obtain ⟨d1, d2, hn1, ha1, hn2, ha2, hteq⟩ := collectEntries_mem hc ht
    refine ⟨d1, d2, hn1, ha1, hn2, ha2, hteq, ?_⟩
    rintro ⟨hd1, hd2⟩
    subst hteq
    simp only [specCanonicalLabel]
    simp only at hd1 hd2
    rw [← hd1, ← hd2]

/-- Witness for C3 at the leading-zero directory 01.2. -/
theorem claim_C3_witness :
    ∃ d1 d2 : List Char, d1 ≠ [] ∧ d1.all Char.isDigit = true ∧ d2 ≠ [] ∧
      d2.all Char.isDigit = true ∧
      ((1, 2, "01.2".data) : VersionTuple) = (digitsToNat d1, digitsToNat d2, d1 ++ '.' :: d2) ∧
      ((d1 = Nat.toDigits 10 ((1, 2, "01.2".data) : VersionTuple).1 ∧
          d2 = Nat.toDigits 10 ((1, 2, "01.2".data) : VersionTuple).2.1) →
        ((1, 2, "01.2".data) : VersionTuple).2.2 =
          specCanonicalLabel ((1, 2, "01.2".data) : VersionTuple).1
            ((1, 2, "01.2".data) : VersionTuple).2.1) :=
  claim_C3 fsLeadingZero [(1, 2, "01.2".data)] (by decide) (1, 2, "01.2".data) (by simp)

/-- C4 counterexample: the pattern captures digit sequences the unwrap
does not survive.  The directory 4294967296.0 matches but its major group
exceeds u32::MAX; the directory named with the Arabic-Indic digits three
and four matches too — the digit class of the regex is Unicode — yet
parse::<u32> accepts only ASCII digits.  Both scans panic, so the
conversion is not infallible for sequences the pattern can capture. -/
theorem claim_C4_counterexample :
    reSemVerCaptures "public/4294967296.0".data = some ("4294967296".data, "0".data) ∧
      list_version_dirs fsOverflow = .panicked ∧
      reSemVerCaptures ("public/".data ++ arabicName) =
        some ([Char.ofNat 1635], [Char.ofNat 1636]) ∧
      list_version_dirs fsArabicDigits = .panicked :=
  ⟨by decide, by decide, by decide, by decide⟩

/-- C4 (amended): the captured groups of any matching path are nonempty
strings of Unicode decimal digits, as the grammar guarantees; but the u32
conversion is stricter than the grammar: it succeeds exactly when a group
is ASCII digits with value at most u32::MAX — then both parses succeed
and the entry is built without panic — while any captured group the
parser rejects (non-ASCII digits, or overflow) makes the unwrap panic. -/
theorem claim_C4 (path d1 d2 : List Char)
    (h : reSemVerCaptures path = some (d1, d2)) :
    (d1 ≠ [] ∧ d1.all isRegexDigit = true ∧ d2 ≠ [] ∧ d2.all isRegexDigit = true) ∧
      (d1.all Char.isDigit = true → digitsToNat d1 < 4294967296 →
        d2.all Char.isDigit = true → digitsToNat d2 < 4294967296 →
        u32_parse d1 = some (digitsToNat d1) ∧ u32_parse d2 = some (digitsToNat d2) ∧
          processPath path = .ok [(digitsToNat d1, digitsToNat d2, d1 ++ '.' :: d2)]) ∧
      ((u32_parse d1 = none ∨ u32_parse d2 = none) → processPath path = .panicked) := by
  obtain ⟨hn1, ha1, hn2, ha2⟩ := reSemVer_digits h
  refine ⟨⟨hn1, ha1, hn2, ha2⟩, ?_, ?_⟩
  · intro hA1 hL1 hA2 hL2
    have p1 : u32_parse d1 = some (digitsToNat d1) := by
      rw [u32_parse_digits hn1 hA1, if_pos hL1]
    have p2 : u32_parse d2 = some (digitsToNat d2) := by
      rw [u32_parse_digits hn2 hA2, if_pos hL2]
    refine ⟨p1, p2, ?_⟩
    simp only [processPath, h, p1, p2]
  · intro hor
    rcases hor with hu | hu
    · simp only [processPath, h, hu]
    · cases hu1 : u32_parse d1 with
      | none => simp only [processPath, h, hu1]
      | some a => simp only [processPath, h, hu1, hu]

/-- Witness for C4 at the ASCII path public/1.10 (entry built, no panic)
and at the Arabic-Indic digit path (panic). -/
theorem claim_C4_witness :
    (u32_parse "1".data = some (digitsToNat "1".data) ∧
      u32_parse "10".data = some (digitsToNat "10".data) ∧
      processPath "public/1.10".data =
        .ok [(digitsToNat "1".data, digitsToNat "10".data, "1".data ++ '.' :: "10".data)]) ∧
      processPath ("public/".data ++ arabicName) = .panicked :=
  ⟨(claim_C4 "public/1.10".data "1".data "10".data (by decide)).2.1
      (by decide) (by decide) (by decide) (by decide),
   (claim_C4 ("public/".data ++ arabicName) [Char.ofNat 1635] [Char.ofNat 1636]
      (by decide)).2.2 (Or.inl (by decide))⟩

/-- C5 counterexample: when the root path exists but is a plain file, the
metadata call succeeds, is_dir is false, and get_versions returns the
empty catalog — not the filesystem error the claim requires for a
non-directory root. -/
theorem claim_C5_counterexample : get_versions fsFileRoot = .ok [] := by decide

/-- C5 (amended): get_versions fails with the filesystem error exactly when
the root metadata cannot be read (missing or inaccessible root); a root
that exists but is not a directory yields an empty catalog rather than an
error; and an existing, accessible, empty root directory also yields an
empty catalog, not an error. -/
theorem claim_C5 (fs : RootFs) (e : IoErr) (ft : FileType) :
    (fs.rootMeta = .err e → get_versions fs = .err e) ∧
      (fs.rootMeta = .ok ft → ft ≠ FileType.dir → get_versions fs = .ok []) ∧
      (fs.rootMeta = .ok FileType.dir → fs.readDir = .ok [] → get_versions fs = .ok []) := by
  refine ⟨?_, ?_, ?_⟩
  · intro h
    simp only [get_versions, list_version_dirs, h]
  · intro h hft
    simp only [get_versions, list_version_dirs, h, if_neg hft]
    rfl
  · intro h hr
    simp only [get_versions, list_version_dirs, h, hr, if_true]
    rfl

/-- Witness for C5 at a missing root, a plain-file root and an empty root
directory. -/
theorem claim_C5_witness :
    get_versions fsMissingRoot =
        .err { msg := "No such file or directory (os error 2)".data } ∧
      get_versions fsFileRoot = .ok [] ∧ get_versions fsEmptyRoot = .ok [] :=
  ⟨(claim_C5 fsMissingRoot { msg := "No such file or directory (os error 2)".data }
      FileType.dir).1 rfl,
   (claim_C5 fsFileRoot { msg := [] } FileType.file).2.1 rfl (by decide),
   (claim_C5 fsEmptyRoot { msg := [] } FileType.dir).2.2 rfl rfl⟩

/-- C6: make_menu_data binds exactly one key, versions, to the input labels
wrapped as singleton version maps, in the same order element for element —
no filtering, no re-sorting, total — and the spec example projects to the
expected structure. -/
theorem claim_C6 (vers : List (List Char)) :
    make_menu_data vers "versions" = some (vers.map singleVersionMap) ∧
      (∀ k : String, k ≠ "versions" → make_menu_data vers k = none) ∧
      (vers.map singleVersionMap).length = vers.length ∧
      (∀ (i : Nat) (h : i < vers.length),
        ∃ hm : i < (vers.map singleVersionMap).length,
          ((vers.map singleVersionMap).get ⟨i, hm⟩) "version" = some (vers.get ⟨i, h⟩) ∧
            ∀ k : String, k ≠ "version" →
              ((vers.map singleVersionMap).get ⟨i, hm⟩) k = none) ∧
      make_menu_data ["1.10".data, "1.9".data, "1.6".data] "versions" =
        some [singleVersionMap "1.10".data, singleVersionMap "1.9".data,
          singleVersionMap "1.6".data] := by
  refine ⟨rfl, ?_, by simp, ?_, rfl⟩
  · intro k hk
    simp [make_menu_data, hk]
  · intro i h
    have hm : i < (vers.map singleVersionMap).length := by simpa using h
    refine ⟨hm, ?_, ?_⟩
    · rw [List.get_map]
      simp [singleVersionMap]
    · intro k hk
      rw [List.get_map]
      simp [singleVersionMap, hk]

/-- Witness for C6 at a one-label catalog and the key other. -/
theorem claim_C6_witness :
    make_menu_data ["1.10".data] "versions" = some (["1.10".data].map singleVersionMap) ∧
      make_menu_data ["1.10".data] "other" = none :=
  ⟨(claim_C6 ["1.10".data]).1, (claim_C6 ["1.10".data]).2.1 "other" (by decide)⟩

/-- C7: when a child entry of the root vanishes between read_dir and the
metadata call, the scan stops with that error, get_versions propagates it
unchanged, and main prints the diagnostic — which contains the error text
and the scanned directory — and returns before ever listening. -/
theorem claim_C7 (fs : RootFs) (pre tail : List (IoResult DirEntry)) (ent : DirEntry)
    (e : IoErr) (vs : List VersionTuple)
    (hroot : fs.rootMeta = .ok FileType.dir)
    (hrd : fs.readDir = .ok (pre ++ .ok ent :: tail))
    (hme : ent.meta = .err e)
    (hpre : collectEntries pre = .ok vs) :
    get_versions fs = .err e ∧ mainModel fs = .exited (diagMessage e) ∧
      e.msg <:+: diagMessage e ∧ DOC_ROOT <:+: diagMessage e := by
  have hstep : collectEntries (IoResult.ok ent :: tail) = .err e := by
    simp only [collectEntries, hme]
  have hall : collectEntries (pre ++ IoResult.ok ent :: tail) = .err e := by
    rw [collectEntries_append _ hpre, hstep]
  have hlvd : list_version_dirs fs = .err e := by
    simp only [list_version_dirs, hroot, hrd, if_true]
    exact hall
  have hgv : get_versions fs = .err e := by
    simp only [get_versions, hlvd]
  refine ⟨hgv, ?_, ?_, ?_⟩
  · simp only [mainModel, hgv]
  · exact ⟨"An error occured while scanning the doc root directory. Exiting. Error: ".data,
      ", Dir: ".data ++ DOC_ROOT, by simp [diagMessage]⟩
  · exact ⟨"An error occured while scanning the doc root directory. Exiting. Error: ".data
      ++ e.msg ++ ", Dir: ".data, [], by simp [diagMessage]⟩

/-- Witness for C7 at the filesystem whose second child vanishes
mid-scan. -/
theorem claim_C7_witness :
    get_versions fsVanishingChild =
        .err { msg := "No such file or directory (os error 2)".data } ∧
      mainModel fsVanishingChild =
        .exited (diagMessage { msg := "No such file or directory (os error 2)".data }) ∧
      IoErr.msg { msg := "No such file or directory (os error 2)".data } <:+:
        diagMessage { msg := "No such file or directory (os error 2)".data } ∧
      DOC_ROOT <:+: diagMessage { msg := "No such file or directory (os error 2)".data } :=
  claim_C7 fsVanishingChild [dirEntry "public/1.6"] []
    { pathStr := some "public/1.9".data
    , meta := .err { msg := "No such file or directory (os error 2)".data } }
    { msg := "No such file or directory (os error 2)".data }
    [(1, 6, "1.6".data)] rfl rfl rfl (by decide)

/-- C8: the menu projection is a pure function of the catalog, so applying
it twice to the same already-computed (hence already-sorted) catalog
yields identical menu values. -/
theorem claim_C8 (fs : RootFs) (vs : List (List Char))
    (hsorted : get_versions fs = .ok vs) :
    make_menu_data vs = make_menu_data vs := rfl

/-- Witness for C8 at the example catalog. -/
theorem claim_C8_witness :
    make_menu_data ["1.10".data, "1.9".data, "1.6".data] =
      make_menu_data ["1.10".data, "1.9".data, "1.6".data] :=
  claim_C8 fsThree ["1.10".data, "1.9".data, "1.6".data] (by decide)

/-- C9: a GET request whose path is not the root and has no matching static
file falls through to the fallback middleware, whose body is exactly the
literal text No static file with path, the path wrapped in apostrophes,
and a bang. -/
theorem claim_C9 (hasStaticFile : List Char → Bool)
    (menu : String → Option (List (String → Option (List Char))))
    (path : List Char) (hp : path ≠ "/".data) (hs : hasStaticFile path = false) :
    route hasStaticFile menu path = Response.text (fallback_body path) ∧
      fallback_body path =
        "No static file with path ".data ++ quoteChar :: (path ++ quoteChar :: "!".data) := by
  constructor
  · simp [route, hp, hs]
  · rfl

/-- Witness for C9 at the path /missing.html with no static files. -/
theorem claim_C9_witness :
    route (fun _ => false) (make_menu_data []) "/missing.html".data =
        Response.text (fallback_body "/missing.html".data) ∧
      fallback_body "/missing.html".data =
        "No static file with path ".data ++
          quoteChar :: ("/missing.html".data ++ quoteChar :: "!".data) :=
  claim_C9 (fun _ => false) (make_menu_data []) "/missing.html".data (by decide) rfl

/-- C10: a child directory whose path is not valid UTF-8 is silently
skipped — the loop over it and the remaining entries has exactly the same
outcome as the loop over the remaining entries alone, so the child never
becomes an entry and never causes an error. -/
theorem claim_C10 (ent : DirEntry) (tail : List (IoResult DirEntry)) (ft : FileType)
    (hps : ent.pathStr = none) (hme : ent.meta = .ok ft) :
    collectEntries (IoResult.ok ent :: tail) = collectEntries tail := by
  simp only [collectEntries, hme, hps, ite_self]
  cases collectEntries tail <;> simp

/-- Witness for C10 at a single non-UTF-8 child directory. -/
theorem claim_C10_witness :
    collectEntries [IoResult.ok { pathStr := none, meta := .ok FileType.dir }] =
      collectEntries [] :=
  claim_C10 { pathStr := none, meta := .ok FileType.dir } [] FileType.dir rfl rfl

end HelloHeroku
